import Mathlib

/-!
A verification development for the F1 telemetry replay viewer
(`src/telemetry.py`, `src/viewer.py`, `src/helpers.py`, `src/selector.py`).

Modelling conventions:
* Python floats are modelled as rationals (`ℚ`); the verified claims are
  order- and arithmetic-level properties, not bit-level float properties.
  `NaN` coordinate entries are modelled as `Option` at the ingestion
  boundary (`TelRow`), mirroring the `notna` masks of the source.
* `pandas.DataFrame.sort_values('time')` is called with its default
  `kind='quicksort'`, whose contract only guarantees *some* permutation
  sorted by the key (stability is guaranteed only for
  `kind='mergesort'/'stable'`).  The builder is therefore modelled two
  ways: a relational contract `timeline_contract` (any time-sorted
  permutation of the normalized rows), and a deterministic representative
  `collect_session_telemetry` that picks the stable sort as one of the
  allowed outcomes.
* Python's `sorted` (used for the leaderboard) is a stable sort; it is
  modelled by `List.insertionSort`, which is stable and sorts exactly as
  `sorted` does for a total preorder key.
-/

/-- Minimum of a list of rationals, `0` on the empty list (the source only
applies it to non-empty series, mirroring `Series.min()`). -/
def listMin : List ℚ → ℚ
  | [] => 0
  | [a] => a
  | a :: b :: l => min a (listMin (b :: l))

/-- Maximum of a list of rationals, `0` on the empty list (mirrors
`Series.max()` / `np.nanmax` on the non-empty series the source feeds it). -/
def listMax : List ℚ → ℚ
  | [] => 0
  | [a] => a
  | a :: b :: l => max a (listMax (b :: l))

/-- Maximum of a list of integers, `0` on the empty list (mirrors
`telemetry.loc[mask, 'lap'].max()` on a non-empty mask). -/
def listMaxZ : List ℤ → ℤ
  | [] => 0
  | [a] => a
  | a :: b :: l => max a (listMaxZ (b :: l))

/-- Truncation of a rational toward zero, the semantics of numpy's
`astype(int)` cast in `normalize_coords`. -/
def truncInt (q : ℚ) : ℤ := q.num.tdiv (q.den : ℤ)

/-- Zero-pad a non-negative integer to three digits (the `mmm` part of the
`{seconds:06.3f}` format in `fmt_time`). -/
def pad3 (n : ℤ) : String :=
  if n < 10 then "00" ++ toString n
  else if n < 100 then "0" ++ toString n
  else toString n

/-- `helpers.fmt_time`: format seconds as `M:SS.mmm`, clamping negatives to
zero.  Decimal rounding of the milliseconds uses `round`; no theorem below
depends on the tie-breaking direction of that rounding. -/
def fmt_time (s : ℚ) : String :=
  let ss := if s < 0 then 0 else s
  let minutes : ℤ := ⌊ss / 60⌋
  let secs := ss - 60 * minutes
  let milli : ℤ := round (secs * 1000)
  toString minutes ++ ":" ++ (if milli < 10000 then "0" else "")
    ++ toString (milli / 1000) ++ "." ++ pad3 (milli % 1000)

/-- The span `max - min` of a coordinate array, replaced by `1` when the
array is constant — the `dx = max_x - min_x if max_x != min_x else 1.0`
lines of `helpers.normalize_coords`. -/
def span (l : List ℚ) : ℚ :=
  if listMax l = listMin l then 1 else listMax l - listMin l

/-- `helpers.normalize_coords`: map raw X/Y arrays to integer screen
coordinates.  `none` models the `np.nanmin` exception on an empty array;
on non-empty input the function is total. -/
def normalize_coords (xs ys : List ℚ) (availW availH padding : ℚ) :
    Option (List ℤ × List ℤ) :=
  if xs.isEmpty ∨ ys.isEmpty then none
  else
    let minX := listMin xs
    let minY := listMin ys
    let dx := span xs
    let dy := span ys
    let effW := availW - padding * 2
    let effH := availH - padding * 2
    let scale := min (effW / dx) (effH / dy)
    let nx := xs.map (fun x => truncInt ((x - minX) * scale + padding))
    let ny := ys.map (fun y => truncInt (availH - ((y - minY) * scale + padding)))
    some (nx, ny)

/-- One row of the built timeline: the columns
`['driver', 'time', 'x', 'y', 'lap', 'distance']` of the DataFrame
produced by `collect_session_telemetry`. -/
structure Sample where
  driver : String
  time : ℚ
  x : ℚ
  y : ℚ
  lap : ℤ
  dist : ℚ
deriving DecidableEq

/-- Time-ordering of samples, the key of `sort_values('time')`. -/
def timeLe (a b : Sample) : Prop := a.time ≤ b.time

instance : DecidableRel timeLe := fun a b => inferInstanceAs (Decidable (a.time ≤ b.time))

instance : IsTotal Sample timeLe := ⟨fun a b => le_total a.time b.time⟩

instance : IsTrans Sample timeLe := ⟨fun _ _ _ h h2 => le_trans h h2⟩

/-- One raw telemetry row of a lap: `X`/`Y` are `none` when the source row
is `NaN` (filtered by the `notna` mask), `time` is the per-row value of
`get_telemetry_time_seconds`, `dist` the `Distance` column entry. -/
structure TelRow where
  x : Option ℚ
  y : Option ℚ
  time : ℚ
  dist : ℚ
deriving DecidableEq

/-- The telemetry frame of one lap as `collect_session_telemetry` sees it:
its rows, whether the `X`/`Y` columns exist, whether
`get_telemetry_time_seconds` succeeded (returned non-`None`), and whether a
`Distance` column is present. -/
structure LapTelemetry where
  rows : List TelRow
  hasXY : Bool
  timesOk : Bool
  hasDistance : Bool
deriving DecidableEq

/-- One lap of one driver: `lapNumber` is `none` when `LapNumber` is
missing/`NaN` (the source then defaults to `0`), `tel` is `none` when
`lap.get_telemetry()` raises or returns `None`. -/
structure LapData where
  lapNumber : Option ℤ
  tel : Option LapTelemetry
deriving DecidableEq

/-- A session as the builder consumes it: per driver (in
`laps['Driver'].unique()` order) the list of that driver's laps. -/
structure SessionModel where
  drivers : List (String × List LapData)
deriving DecidableEq

/-- The samples one lap contributes to the timeline: the body of the inner
loop of `collect_session_telemetry`, with every `continue` guard of the
source (missing telemetry, empty frame, missing X/Y columns, unparseable
times, all-NaN position mask). -/
def lap_samples (drv : String) (lap : LapData) : List Sample :=
  match lap.tel with
  | none => []
  | some tel =>
    if tel.rows.isEmpty then []
    else if ¬ tel.hasXY then []
    else if ¬ tel.timesOk then []
    else
      let kept := tel.rows.filter (fun r => r.x.isSome && r.y.isSome)
      if kept.isEmpty then []
      else
        let lapNum := lap.lapNumber.getD 0
        let lapStart := listMin (kept.map (·.time))
        kept.map (fun r =>
          { driver := drv, time := r.time, x := r.x.getD 0, y := r.y.getD 0,
            lap := lapNum,
            dist := if tel.hasDistance then r.dist else r.time - lapStart })

/-- All rows of the concatenated DataFrame (`pd.concat(rows)`), before time
normalization and sorting. -/
def collect_rows (s : SessionModel) : List Sample :=
  s.drivers.flatMap (fun p => p.2.flatMap (lap_samples p.1))

/-- The concatenated rows after the global time normalization
`full['time'] = full['time'] - global_min`. -/
def normalized_rows (s : SessionModel) : List Sample :=
  let rows := collect_rows s
  let gmin := listMin (rows.map (·.time))
  rows.map (fun r => { r with time := r.time - gmin })

/-- The contract of `full.sort_values('time')` with the default
`kind='quicksort'`: the builder may return any permutation of the
normalized rows that is sorted by time.  (Only `kind='mergesort'/'stable'`
would additionally guarantee stability.) -/
def timeline_contract (s : SessionModel) (out : List Sample) : Prop :=
  collect_rows s ≠ [] ∧ out.Perm (normalized_rows s) ∧ List.Sorted timeLe out

/-- The stability property: samples with equal time keep their pre-sort
relative order. -/
def keeps_equal_time_order (pre out : List Sample) : Prop :=
  ∀ a b : Sample, a.time = b.time → List.Sublist [a, b] pre → List.Sublist [a, b] out

/-- `collect_session_telemetry`, deterministically: `none` when no lap
yields any row (`if not rows: return None`), otherwise the normalized rows
sorted by time.  The stable sort is taken as the representative of the
permutations `sort_values` may return; `timeline_contract` is the full
contract. -/
def collect_session_telemetry (s : SessionModel) : Option (List Sample) :=
  if collect_rows s = [] then none
  else some ((normalized_rows s).insertionSort timeLe)

/-- The outcome of `F1Selector.load_data`: either playback startup is
aborted (`if telemetry is None: ... return`) or the viewer is launched with
the built timeline (`finish_loading` → `run_viewer`). -/
inductive LoadOutcome where
  | aborted
  | launched (tel : List Sample)
deriving DecidableEq

/-- The caller's branch on the builder result in `F1Selector.load_data`. -/
def load_data (s : SessionModel) : LoadOutcome :=
  match collect_session_telemetry s with
  | none => .aborted
  | some t => .launched t

/-- `np.searchsorted(arr, t, side='right')`: on a sorted array, the number
of elements `≤ t` (the rightmost insertion point). -/
def searchsorted_right (arr : List ℚ) (t : ℚ) : ℕ :=
  arr.countP (fun x => decide (x ≤ t))

/-- The per-driver index computation of the viewer's snapshot loop:
`idx = searchsorted(..., side='right') - 1`, clamped to `0` when negative
(pre-start/grid state) and to `size - 1` when out of range (a branch that
never fires, kept for fidelity). -/
def snapshot_idx (arr : List ℚ) (t : ℚ) : ℕ :=
  let i : ℤ := (searchsorted_right arr t : ℤ) - 1
  if i < 0 then 0
  else if (arr.length : ℤ) ≤ i then arr.length - 1
  else i.toNat

/-- The per-driver, per-frame state resolved by the snapshot loop
(`tm`, `lap`, `dist`, `progress_score`; the normalized screen coordinates
are carried by the drawing layer and not needed by any claim). -/
structure Snap where
  time : ℚ
  lap : ℤ
  dist : ℚ
  score : ℚ
deriving DecidableEq

/-- Build the snapshot fields from the sample at the resolved index,
including `progress_score = lap * lap_distance_margin + dist`. -/
def snap_of (margin : ℚ) (s : Sample) : Snap :=
  ⟨s.time, s.lap, s.dist, (s.lap : ℚ) * margin + s.dist⟩

/-- The snapshot query for one driver: `none` exactly when the driver's
time array is empty (the `drivers_no_telemetry` branch), otherwise the
sample at `snapshot_idx`. -/
def snapshot (margin : ℚ) (g : List Sample) (t : ℚ) : Option Snap :=
  match g with
  | [] => none
  | s0 :: rest =>
    some (snap_of margin ((s0 :: rest).getD (snapshot_idx ((s0 :: rest).map (·.time)) t) s0))

/-- Order-preserving de-duplication with an accumulator of already-seen
keys; `uniqueFirst` below mirrors `telemetry['driver'].unique()`. -/
def uniqueFirstGo : List String → List String → List String
  | [], _ => []
  | d :: rest, seen =>
    if d ∈ seen then uniqueFirstGo rest seen else d :: uniqueFirstGo rest (d :: seen)

/-- `telemetry['driver'].unique()`: driver ids in first-appearance order. -/
def uniqueFirst (l : List String) : List String := uniqueFirstGo l []

/-- The per-driver sorted view `telemetry[telemetry['driver'] == drv]
.sort_values('time')` (stable representative of the sort, as for the
timeline). -/
def driver_data (tel : List Sample) (d : String) : List Sample :=
  (tel.filter (fun s => s.driver = d)).insertionSort timeLe

/-- Python's binary `max(a, b)`: returns the first argument when the two
compare equal (the values coincide then anyway). -/
def pymax (a b : ℚ) : ℚ := if b ≤ a then a else b

/-- `lap_distance_margin = max(1000.0, max_dist + 100.0)` with `max_dist`
the maximum of the `distance` column (`0.0` on an empty column). -/
def lap_distance_margin (tel : List Sample) : ℚ :=
  let ds := tel.map (·.dist)
  let maxd := if ds.isEmpty then 0 else listMax ds
  pymax 1000 (maxd + 100)

/-- The viewer inputs that the ranked-standings computation reads:
the built timeline, the recorded final classification (`driver_positions`;
lookups default to the last-place sentinel `99`), and the scheduled
`total_laps`. -/
structure ViewerInput where
  telemetry : List Sample
  positions : List (String × ℤ)
  totalLaps : ℤ
deriving DecidableEq

/-- `driver_positions.get(drv, 99)`. -/
def posOf (ps : List (String × ℤ)) (d : String) : ℤ :=
  ((ps.find? (fun p => p.1 = d)).map (·.2)).getD 99

/-- The `driver_stats` dict of one frame: for every driver (insertion
order = first appearance in the telemetry) with a non-empty time array,
its snapshot. -/
def driver_stats (inp : ViewerInput) (t : ℚ) : List (String × Snap) :=
  (uniqueFirst (inp.telemetry.map (·.driver))).filterMap
    (fun d => (snapshot (lap_distance_margin inp.telemetry) (driver_data inp.telemetry d) t).map
      (fun s => (d, s)))

/-- `current_lap`: the maximum lap number among samples with
`time <= sim_time`, `0` when no sample qualifies. -/
def current_lap (tel : List Sample) (t : ℚ) : ℤ :=
  let past := tel.filter (fun s => decide (s.time ≤ t))
  if past.isEmpty then 0 else listMaxZ (past.map (·.lap))

/-- The descending-progress-score ordering used by the in-progress
leaderboard sort (`key=progress_score, reverse=True`). -/
def scoreGe (a b : String × Snap) : Prop := b.2.score ≤ a.2.score

instance : DecidableRel scoreGe := fun a b => inferInstanceAs (Decidable (b.2.score ≤ a.2.score))

instance : IsTotal (String × Snap) scoreGe := ⟨fun a b => le_total b.2.score a.2.score⟩

instance : IsTrans (String × Snap) scoreGe := ⟨fun _ _ _ h h2 => le_trans h2 h⟩

/-- The classification ordering used once the race is finished
(`key=driver_positions.get(..., 99)`). -/
def posLe (ps : List (String × ℤ)) (a b : String × Snap) : Prop :=
  posOf ps a.1 ≤ posOf ps b.1

instance (ps : List (String × ℤ)) : DecidableRel (posLe ps) :=
  fun a b => inferInstanceAs (Decidable (posOf ps a.1 ≤ posOf ps b.1))

instance (ps : List (String × ℤ)) : IsTotal (String × Snap) (posLe ps) :=
  ⟨fun a b => le_total (posOf ps a.1) (posOf ps b.1)⟩

instance (ps : List (String × ℤ)) : IsTrans (String × Snap) (posLe ps) :=
  ⟨fun _ _ _ h h2 => le_trans h h2⟩

/-- The `sorted_drivers` list of one frame: classification order once
`current_lap >= total_laps`, descending progress score otherwise.  Python's
`sorted` is stable; `insertionSort` models it exactly. -/
def frame_ranking (inp : ViewerInput) (t : ℚ) : List (String × Snap) :=
  if inp.totalLaps ≤ current_lap inp.telemetry t then
    (driver_stats inp t).insertionSort (posLe inp.positions)
  else
    (driver_stats inp t).insertionSort scoreGe

/-- The lap number of the driver currently leading by progress score (head
of the descending-score order); `0` for an empty grid.  This is the trigger
the specification ascribes to the regime switch. -/
def leader_lap_by_score (inp : ViewerInput) (t : ℚ) : ℤ :=
  ((((driver_stats inp t).insertionSort scoreGe).head?).map (fun p => p.2.lap)).getD 0

/-- The gap label of one leaderboard row (`gap_str` in the drawing loop):
same-lap rows show the jitter-absorbed, clamped time gap to the leader,
lapped rows show `+N lap(s)`. -/
def gap_str (leader_time : ℚ) (leader_lap : ℤ) (pos : ℕ) (tm : ℚ) (lap_num : ℤ) : String :=
  if lap_num = leader_lap then
    if pos = 1 then ""
    else
      let g0 := leader_time - tm
      let g1 := if g0 < 0 ∧ -(1/1000 : ℚ) < g0 then 0 else g0
      let g2 := max 0 g1
      " +" ++ fmt_time g2
  else
    let lap_diff := leader_lap - lap_num
    if lap_diff ≤ 0 then ""
    else if lap_diff = 1 then " +1 lap"
    else " +" ++ toString lap_diff ++ " laps"

/-- The status-code → label mapping of the viewer (`safety_str`); unmapped
codes, including `'1'`, fall through to `"Green Flag"`. -/
def safety_str (code : String) : String :=
  if code = "3" ∨ code = "3.0" then "Safety Car Deployed"
  else if code = "7" ∨ code = "7.0" then "VSC Deployed"
  else if code = "2" ∨ code = "2.0" then "Safety Car Reported"
  else if code = "5" ∨ code = "5.0" then "Yellow Flag"
  else if code = "4" ∨ code = "4.0" then "Red Flag"
  else if code = "6" ∨ code = "6.0" ∨ code = "8" ∨ code = "8.0" then "Safety Car Ending"
  else "Green Flag"

/-- The rightmost-`<=` status lookup of one frame: index
`searchsorted(status_times, sim_time, 'right') - 1` into the code array,
defaulting to `'1'` when out of range (empty stream or `sim_time` before
the first entry). -/
def current_status (times : List ℚ) (codes : List String) (t : ℚ) : String :=
  let i : ℤ := (searchsorted_right times t : ℤ) - 1
  if 0 ≤ i ∧ i < (codes.length : ℤ) then codes.getD i.toNat "1" else "1"

/-- The displayed safety-car label of one frame. -/
def status_label (times : List ℚ) (codes : List String) (t : ℚ) : String :=
  safety_str (current_status times codes t)

/-- The playback-clock state of the viewer loop: `sim_time`, the
playing/paused flag and the speed factor. -/
structure Clock where
  simTime : ℚ
  playing : Bool
  speed : ℚ
deriving DecidableEq

/-- The clock-affecting user commands and the per-frame tick. -/
inductive Cmd where
  | toggle
  | speedUp
  | speedDown
  | scrubRight
  | scrubLeft
  | tick (dt : ℚ)
deriving DecidableEq

/-- One event/tick of the playback loop, over the telemetry bounds
`lo = times[0]`, `hi = times[-1]`: SPACE toggles, UP/DOWN double/halve the
speed within `[0.125, 128]`, LEFT/RIGHT scrub by one second only while
paused, and while playing each frame advances `sim_time` by `dt * speed`
and clamps it into `[lo, hi]`. -/
def clock_step (lo hi : ℚ) (c : Clock) : Cmd → Clock
  | .toggle => { c with playing := !c.playing }
  | .speedUp => { c with speed := min 128 (c.speed * 2) }
  | .speedDown => { c with speed := max (1/8) (c.speed / 2) }
  | .scrubRight => if c.playing then c else { c with simTime := min (c.simTime + 1) hi }
  | .scrubLeft => if c.playing then c else { c with simTime := max (c.simTime - 1) lo }
  | .tick dt =>
    if c.playing then
      let s1 := c.simTime + dt * c.speed
      let s2 := if hi < s1 then hi else s1
      let s3 := if s2 < lo then lo else s2
      { c with simTime := s3 }
    else c

/-- The initial playback state: `sim_time = times[0]`, playing, speed 4. -/
def clock_init (lo : ℚ) : Clock := ⟨lo, true, 4⟩

/-- Run the playback loop over a sequence of commands/ticks. -/
def clock_run (lo hi : ℚ) (cmds : List Cmd) : Clock :=
  cmds.foldl (clock_step lo hi) (clock_init lo)

/-! Concrete instances used by counterexamples and witnesses. -/

/-- A lap whose telemetry is a single valid row at raw time 7. -/
def c1lap : LapData :=
  ⟨some 1, some ⟨[⟨some 0, some 0, 7, 0⟩], true, true, true⟩⟩

/-- Two drivers, each contributing one sample at the same raw time. -/
def c1session : SessionModel := ⟨[("P", [c1lap]), ("Q", [c1lap])]⟩

/-- Driver P's normalized sample in `c1session`. -/
def c1sampleP : Sample := ⟨"P", 0, 0, 0, 1, 0⟩

/-- Driver Q's normalized sample in `c1session`. -/
def c1sampleQ : Sample := ⟨"Q", 0, 0, 0, 1, 0⟩

/-- A time-sorted output permutation that swaps the two equal-time rows. -/
def c1out : List Sample := [c1sampleQ, c1sampleP]

/-- A dataset whose maximum observed distance is `0` but which contains a
negative distance (the `Distance` telemetry column is taken as-is by the
builder). -/
def c3tel : List Sample :=
  [⟨"A", 0, 0, 0, 1, -2000⟩, ⟨"B", 0, 0, 0, 0, 0⟩]

/-- Viewer input over `c3tel`. -/
def c3inp : ViewerInput := ⟨c3tel, [], 50⟩

/-- A dataset with non-negative distances for the amended-claim witness. -/
def w3tel : List Sample :=
  [⟨"A", 0, 0, 0, 1, 5⟩, ⟨"B", 0, 0, 0, 0, 0⟩]

/-- Driver A samples from time 0; driver B's first sample lies at time 10
on lap 3 (e.g. telemetry recording began late). -/
def c4tel : List Sample := [⟨"A", 0, 0, 0, 0, 0⟩, ⟨"B", 10, 0, 0, 3, 0⟩]

/-- Viewer input over `c4tel`: classification A=1, B=2, 2 scheduled laps. -/
def c4inp : ViewerInput := ⟨c4tel, [("A", 1), ("B", 2)], 2⟩

/-- Two drivers with identical progress scores, listed in the telemetry in
the order BB before AA (so first-appearance order disagrees with
identifier order). -/
def c5tel : List Sample := [⟨"BB", 0, 0, 0, 0, 0⟩, ⟨"AA", 0, 0, 0, 0, 0⟩]

/-- Viewer input over `c5tel` with one scheduled lap (race in progress at
`t = 0`). -/
def c5inp : ViewerInput := ⟨c5tel, [], 1⟩

/-- A one-sample driver track for the snapshot-lookup witness. -/
def w2track : List Sample := [⟨"A", 3, 0, 0, 0, 0⟩]

/-! General lemmas about the list extrema. -/

theorem listMin_mem : ∀ (l : List ℚ), l ≠ [] → listMin l ∈ l
  | [a], _ => by simp [listMin]
  | a :: b :: l, _ => by
    have ih := listMin_mem (b :: l) (by simp)
    simp only [listMin]
    rcases min_choice a (listMin (b :: l)) with h | h <;> rw [h]
    · exact List.mem_cons_self _ _
    · exact List.mem_cons_of_mem _ ih

theorem listMin_le : ∀ (l : List ℚ), ∀ x ∈ l, listMin l ≤ x
  | [], x => by simp
  | [a], x => by
    intro hx
    simp at hx
    simp [listMin, hx]
  | a :: b :: l, x => by
    intro hx
    simp only [listMin]
    rcases List.mem_cons.mp hx with rfl | hx
    · exact min_le_left _ _
    · exact le_trans (min_le_right _ _) (listMin_le (b :: l) x hx)

theorem listMax_mem : ∀ (l : List ℚ), l ≠ [] → listMax l ∈ l
  | [a], _ => by simp [listMax]
  | a :: b :: l, _ => by
    have ih := listMax_mem (b :: l) (by simp)
    simp only [listMax]
    rcases max_choice a (listMax (b :: l)) with h | h <;> rw [h]
    · exact List.mem_cons_self _ _
    · exact List.mem_cons_of_mem _ ih

theorem le_listMax : ∀ (l : List ℚ), ∀ x ∈ l, x ≤ listMax l
  | [], x => by simp
  | [a], x => by
    intro hx
    simp at hx
    simp [listMax, hx]
  | a :: b :: l, x => by
    intro hx
    simp only [listMax]
    rcases List.mem_cons.mp hx with rfl | hx
    · exact le_max_left _ _
    · exact le_trans (le_listMax (b :: l) x hx) (le_max_right _ _)

theorem pymax_eq_max (a b : ℚ) : pymax a b = max a b := by
  rw [pymax]
  split_ifs with h
  · exact (max_eq_left h).symm
  · exact (max_eq_right (le_of_not_le h)).symm

theorem listMin_perm {l1 l2 : List ℚ} (h : l1.Perm l2) : listMin l1 = listMin l2 := by
  rcases eq_or_ne l1 [] with rfl | h1
  · rw [h.nil_eq]
  · have h2 : l2 ≠ [] := by
      intro e
      subst e
      exact h1 h.eq_nil
    exact le_antisymm
      (listMin_le l1 _ (h.mem_iff.mpr (listMin_mem l2 h2)))
      (listMin_le l2 _ (h.mem_iff.mp (listMin_mem l1 h1)))

theorem listMin_map_sub : ∀ (l : List ℚ) (c : ℚ), l ≠ [] →
    listMin (l.map (fun x => x - c)) = listMin l - c
  | [a], c, _ => by simp [listMin]
  | a :: b :: l, c, _ => by
    have ih := listMin_map_sub (b :: l) c (by simp)
    simp only [List.map] at ih ⊢
    simp only [listMin, ih]
    exact min_sub_sub_right a (listMin (b :: l)) c

/-! The binary-search characterization on sorted arrays. -/

theorem sorted_getD_le_iff (t : ℚ) :
    ∀ (l : List ℚ), List.Sorted (· ≤ ·) l → ∀ j, j < l.length →
      (l.getD j 0 ≤ t ↔ j < searchsorted_right l t)
  | [], _, j, hj => by simp at hj
  | a :: l, hs, j, hj => by
    obtain ⟨ha, hl⟩ := List.sorted_cons.mp hs
    by_cases hat : a ≤ t
    · cases j with
      | zero =>
        simp [searchsorted_right, List.countP_cons, hat]
      | succ j =>
        have ih := sorted_getD_le_iff t l hl j (by simpa using Nat.lt_of_succ_lt_succ hj)
        simp only [List.getD_cons_succ, searchsorted_right, List.countP_cons, hat] at ih ⊢
        rw [ih]
        simp [searchsorted_right]
    · have hz : l.countP (fun x => decide (x ≤ t)) = 0 := by
        rw [List.countP_eq_zero]
        intro x hx
        simpa using fun hxt => hat (le_trans (ha x hx) hxt)
      cases j with
      | zero =>
        simp [searchsorted_right, List.countP_cons, hat, hz]
      | succ j =>
        have hjl : j < l.length := by simpa using Nat.lt_of_succ_lt_succ hj
        have hmem : l.getD j 0 ∈ l := by
          rw [List.getD_eq_getElem l 0 hjl]
          exact List.getElem_mem hjl
        simp only [List.getD_cons_succ, searchsorted_right, List.countP_cons, hat, hz,
          decide_eq_true_eq]
        constructor
        · intro hle
          exact absurd (le_trans (ha _ hmem) hle) hat
        · simp [hat]

theorem snapshot_idx_spec (l : List ℚ) (t : ℚ) (hs : List.Sorted (· ≤ ·) l) (hne : l ≠ []) :
    snapshot_idx l t < l.length ∧
    (∀ j, j < l.length → l.getD j 0 ≤ t → j ≤ snapshot_idx l t) ∧
    (l.getD 0 0 ≤ t → l.getD (snapshot_idx l t) 0 ≤ t) ∧
    (t < l.getD 0 0 → snapshot_idx l t = 0) := by
  have hlen0 : 0 < l.length := List.length_pos.mpr hne
  have hcle : searchsorted_right l t ≤ l.length := List.countP_le_length _
  by_cases hc : searchsorted_right l t = 0
  · have hidx : snapshot_idx l t = 0 := by
      simp [snapshot_idx, hc]
    refine ⟨hidx ▸ hlen0, ?_, ?_, fun _ => hidx⟩
    · intro j hj hle
      have := (sorted_getD_le_iff t l hs j hj).mp hle
      omega
    · intro h0
      have := (sorted_getD_le_iff t l hs 0 hlen0).mp h0
      omega
  · have hcpos : 0 < searchsorted_right l t := Nat.pos_of_ne_zero hc
    have hidx : snapshot_idx l t = searchsorted_right l t - 1 := by
      simp only [snapshot_idx]
      rw [if_neg (by omega), if_neg (by omega)]
      omega
    have hlt : searchsorted_right l t - 1 < l.length := by omega
    refine ⟨hidx ▸ hlt, ?_, ?_, ?_⟩
    · intro j hj hle
      have := (sorted_getD_le_iff t l hs j hj).mp hle
      omega
    · intro _
      rw [hidx]
      exact (sorted_getD_le_iff t l hs _ hlt).mpr (by omega)
    · intro hlt0
      have := (sorted_getD_le_iff t l hs 0 hlen0).mpr hcpos
      exact absurd this (not_le.mpr hlt0)

theorem sorted_times_of_sorted (g : List Sample) (hs : List.Sorted timeLe g) :
    List.Sorted (· ≤ ·) (g.map (·.time)) :=
  List.Pairwise.map _ (fun _ _ h => h) hs

/-! Lemmas about the frame computation. -/

theorem mem_uniqueFirstGo : ∀ (l seen : List String) (a : String),
    a ∈ uniqueFirstGo l seen ↔ a ∈ l ∧ a ∉ seen
  | [], seen, a => by simp [uniqueFirstGo]
  | d :: rest, seen, a => by
    by_cases hd : d ∈ seen
    · rw [uniqueFirstGo, if_pos hd, mem_uniqueFirstGo rest seen a]
      constructor
      · exact fun ⟨h1, h2⟩ => ⟨List.mem_cons_of_mem _ h1, h2⟩
      · rintro ⟨h1, h2⟩
        rcases List.mem_cons.mp h1 with rfl | h1
        · exact absurd hd h2
        · exact ⟨h1, h2⟩
    · rw [uniqueFirstGo, if_neg hd]
      simp only [List.mem_cons, mem_uniqueFirstGo rest (d :: seen) a]
      by_cases had : a = d
      · subst had
        simp [hd]
      · simp [had]

theorem mem_uniqueFirst (l : List String) (a : String) : a ∈ uniqueFirst l ↔ a ∈ l := by
  simp [uniqueFirst, mem_uniqueFirstGo]

theorem filterMap_map_fst {β : Type} (l : List String) (f : String → Option (String × β))
    (h : ∀ d ∈ l, ∃ s, f d = some (d, s)) : (l.filterMap f).map Prod.fst = l := by
  induction l with
  | nil => simp
  | cons d rest ih =>
    obtain ⟨s, hs⟩ := h d (List.mem_cons_self d rest)
    rw [List.filterMap_cons, hs, List.map_cons,
      ih (fun e he => h e (List.mem_cons_of_mem _ he))]

theorem driver_data_ne_nil (tel : List Sample) (d : String)
    (h : d ∈ tel.map (·.driver)) : driver_data tel d ≠ [] := by
  obtain ⟨s, hs, rfl⟩ := List.mem_map.mp h
  intro he
  have hmem : s ∈ tel.filter (fun x => x.driver = s.driver) :=
    List.mem_filter.mpr ⟨hs, by simp⟩
  have hperm := (tel.filter (fun x => x.driver = s.driver)).perm_insertionSort timeLe
  rw [driver_data] at he
  rw [he] at hperm
  exact absurd (hperm.mem_iff.mpr hmem) (List.not_mem_nil s)

theorem driver_stats_fst (inp : ViewerInput) (t : ℚ) :
    (driver_stats inp t).map Prod.fst = uniqueFirst (inp.telemetry.map (·.driver)) := by
  apply filterMap_map_fst
  intro d hd
  have hd2 : d ∈ inp.telemetry.map (·.driver) := (mem_uniqueFirst _ _).mp hd
  have hne := driver_data_ne_nil inp.telemetry d hd2
  cases hgg : driver_data inp.telemetry d with
  | nil => exact absurd hgg hne
  | cons s0 rest =>
    refine ⟨snap_of (lap_distance_margin inp.telemetry)
      ((s0 :: rest).getD (snapshot_idx ((s0 :: rest).map (·.time)) t) s0), ?_⟩
    simp only [snapshot, Option.map_some']

/-! The playback-clock invariant. -/

/-- The invariant of the playback loop state: `sim_time` within the
telemetry bounds and speed within `[0.125, 128]`. -/
def clock_inv (lo hi : ℚ) (c : Clock) : Prop :=
  lo ≤ c.simTime ∧ c.simTime ≤ hi ∧ (1/8 : ℚ) ≤ c.speed ∧ c.speed ≤ 128

theorem clock_step_inv (lo hi : ℚ) (hlh : lo ≤ hi) (c : Clock) (cmd : Cmd)
    (h : clock_inv lo hi c) : clock_inv lo hi (clock_step lo hi c cmd) := by
  obtain ⟨h1, h2, h3, h4⟩ := h
  cases cmd with
  | toggle => exact ⟨h1, h2, h3, h4⟩
  | speedUp =>
    refine ⟨h1, h2, ?_, ?_⟩
    · exact le_min (by norm_num) (by linarith)
    · exact min_le_left _ _
  | speedDown =>
    refine ⟨h1, h2, ?_, ?_⟩
    · exact le_max_left _ _
    · exact max_le (by norm_num) (by linarith)
  | scrubRight =>
    simp only [clock_step]
    split_ifs
    · exact ⟨h1, h2, h3, h4⟩
    · exact ⟨le_min (by linarith) hlh, min_le_right _ _, h3, h4⟩
  | scrubLeft =>
    simp only [clock_step]
    split_ifs
    · exact ⟨h1, h2, h3, h4⟩
    · exact ⟨le_max_right _ _, max_le (by linarith) hlh, h3, h4⟩
  | tick dt =>
    simp only [clock_step]
    split_ifs with hp h5 h6 h7
    · exact ⟨le_refl lo, hlh, h3, h4⟩
    · exact ⟨hlh, le_refl hi, h3, h4⟩
    · exact ⟨le_refl lo, hlh, h3, h4⟩
    · exact ⟨not_lt.mp h7, not_lt.mp h5, h3, h4⟩
    · exact ⟨h1, h2, h3, h4⟩

theorem clock_foldl_inv (lo hi : ℚ) (hlh : lo ≤ hi) :
    ∀ (cmds : List Cmd) (c : Clock), clock_inv lo hi c →
      clock_inv lo hi (cmds.foldl (clock_step lo hi) c)
  | [], _, h => h
  | cmd :: rest, c, h =>
    clock_foldl_inv lo hi hlh rest _ (clock_step_inv lo hi hlh c cmd h)

/-! Claim theorems. -/

/-- C7: starting from the initial playback state (`sim_time = times[0]`,
speed 4, playing), after any finite sequence of play/pause toggles, ticks,
paused scrubs and speed doublings/halvings, `sim_time` stays within
`[min_time, max_time]` and the speed stays within `[0.125, 128]`. -/
theorem clock_bounds_invariant (lo hi : ℚ) (h : lo ≤ hi) (cmds : List Cmd) :
    lo ≤ (clock_run lo hi cmds).simTime ∧ (clock_run lo hi cmds).simTime ≤ hi ∧
      (1/8 : ℚ) ≤ (clock_run lo hi cmds).speed ∧ (clock_run lo hi cmds).speed ≤ 128 :=
  clock_foldl_inv lo hi h cmds (clock_init lo)
    ⟨le_refl lo, h, by norm_num [clock_init], by norm_num [clock_init]⟩

/-- Witness for `clock_bounds_invariant` on bounds `[0, 10]` and a concrete
command sequence. -/
theorem clock_bounds_invariant_witness :
    (0:ℚ) ≤ 10 ∧
      ((0:ℚ) ≤ (clock_run 0 10 [Cmd.tick 1, Cmd.speedUp, Cmd.toggle, Cmd.scrubRight]).simTime ∧
       (clock_run 0 10 [Cmd.tick 1, Cmd.speedUp, Cmd.toggle, Cmd.scrubRight]).simTime ≤ 10 ∧
       (1/8 : ℚ) ≤ (clock_run 0 10 [Cmd.tick 1, Cmd.speedUp, Cmd.toggle, Cmd.scrubRight]).speed ∧
       (clock_run 0 10 [Cmd.tick 1, Cmd.speedUp, Cmd.toggle, Cmd.scrubRight]).speed ≤ 128) :=
  ⟨by norm_num, clock_bounds_invariant 0 10 (by norm_num) _⟩

/-- C6: a ranked non-leader entry on the same lap as the leader is labelled
with the formatted value of `max 0 (leader.time - entry.time)` (the jitter
branch for differences in `(-0.001, 0]` collapses into this clamped value);
an entry one lap down is labelled `"+1 lap"`, more than one lap down
`"+N laps"`, and a non-positive lap difference yields an empty label.  The
leading `" +"` of the non-empty labels is the spacing the source
concatenates into the rendered row. -/
theorem gap_label_spec (leader_time : ℚ) (leader_lap : ℤ) (pos : ℕ) (tm : ℚ) (lap_num : ℤ) :
    (lap_num = leader_lap → pos ≠ 1 →
      gap_str leader_time leader_lap pos tm lap_num
        = " +" ++ fmt_time (max 0 (leader_time - tm))) ∧
    (leader_lap - lap_num = 1 →
      gap_str leader_time leader_lap pos tm lap_num = " +1 lap") ∧
    (1 < leader_lap - lap_num →
      gap_str leader_time leader_lap pos tm lap_num
        = " +" ++ toString (leader_lap - lap_num) ++ " laps") ∧
    (lap_num ≠ leader_lap → leader_lap - lap_num ≤ 0 →
      gap_str leader_time leader_lap pos tm lap_num = "") := by
  have hval : max 0 (if leader_time - tm < 0 ∧ -(1/1000 : ℚ) < leader_time - tm then 0
      else leader_time - tm) = max 0 (leader_time - tm) := by
    split_ifs with hc
    · rw [max_eq_left le_rfl, eq_comm, max_eq_left hc.1.le]
    · rfl
  refine ⟨?_, ?_, ?_, ?_⟩
  · intro heq hpos
    simp only [gap_str]
    rw [if_pos heq, if_neg hpos, hval]
  · intro hd
    simp only [gap_str]
    rw [if_neg (by omega : ¬ lap_num = leader_lap), if_neg (by omega : ¬ leader_lap - lap_num ≤ 0),
      if_pos hd]
  · intro hd
    simp only [gap_str]
    rw [if_neg (by omega : ¬ lap_num = leader_lap), if_neg (by omega : ¬ leader_lap - lap_num ≤ 0),
      if_neg (by omega : ¬ leader_lap - lap_num = 1)]
  · intro hne hle
    simp only [gap_str]
    rw [if_neg hne, if_pos hle]

/-- Witness for `gap_label_spec`: a same-lap non-leader entry 3 seconds
behind the leader. -/
theorem gap_label_spec_witness :
    gap_str 10 1 2 7 1 = " +" ++ fmt_time (max 0 (10 - 7)) :=
  (gap_label_spec 10 1 2 7 1).1 rfl (by decide)

/-- C9: over the status stream `[(0,'1'),(5,'4')]` the rightmost-`<=`
lookup at `t = 3` yields code `'1'` (labelled green flag), at `t = 6` code
`'4'` (labelled red flag), and at `t = -1` no entry matches, so the label
defaults to the green flag; an empty status stream yields the green-flag
default at every query time. -/
theorem status_lookup_defaults :
    current_status [0, 5] ["1", "4"] 3 = "1" ∧
    status_label [0, 5] ["1", "4"] 3 = "Green Flag" ∧
    current_status [0, 5] ["1", "4"] 6 = "4" ∧
    status_label [0, 5] ["1", "4"] 6 = "Red Flag" ∧
    current_status [0, 5] ["1", "4"] (-1) = "1" ∧
    status_label [0, 5] ["1", "4"] (-1) = "Green Flag" ∧
    (∀ t : ℚ, status_label [] [] t = "Green Flag") :=
  ⟨rfl, rfl, rfl, rfl, rfl, rfl, fun _ => rfl⟩

/-- C10: `normalize_coords` is total on non-empty coordinate arrays — the
spans are strictly positive (so the scale computation never divides by
zero), a constant array gets span `1`, and the result is a pair of integer
coordinate lists of the input lengths. -/
theorem normalize_coords_total (xs ys : List ℚ) (w h p : ℚ)
    (hx : xs ≠ []) (hy : ys ≠ []) :
    0 < span xs ∧ 0 < span ys ∧
    ((∀ a ∈ xs, ∀ b ∈ xs, a = b) → span xs = 1) ∧
    ∃ nx ny, normalize_coords xs ys w h p = some (nx, ny) ∧
      nx.length = xs.length ∧ ny.length = ys.length := by
  have hsp : ∀ (l : List ℚ), l ≠ [] → 0 < span l := by
    intro l hl
    rw [span]
    split_ifs with hc
    · norm_num
    · have h1 : listMin l ≤ listMax l := listMin_le l _ (listMax_mem l hl)
      have h2 : listMin l ≠ listMax l := fun e => hc e.symm
      exact sub_pos.mpr (lt_of_le_of_ne h1 h2)
  refine ⟨hsp xs hx, hsp ys hy, ?_, ?_⟩
  · intro hall
    rw [span, if_pos (hall _ (listMax_mem xs hx) _ (listMin_mem xs hx))]
  · cases xs with
    | nil => exact absurd rfl hx
    | cons a as =>
      cases ys with
      | nil => exact absurd rfl hy
      | cons b bs =>
        exact ⟨_, _, rfl, by simp, by simp⟩

/-- Witness for `normalize_coords_total` on a constant-x input. -/
theorem normalize_coords_total_witness :
    0 < span [1, 1] ∧ 0 < span [2, 3] ∧
    ((∀ a ∈ [(1:ℚ), 1], ∀ b ∈ [(1:ℚ), 1], a = b) → span [1, 1] = 1) ∧
    ∃ nx ny, normalize_coords [1, 1] [2, 3] 600 800 40 = some (nx, ny) ∧
      nx.length = [(1:ℚ), 1].length ∧ ny.length = [(2:ℚ), 3].length :=
  normalize_coords_total [1, 1] [2, 3] 600 800 40 (by decide) (by decide)

/-- C2: for a driver with at least one sample (time-sorted track `g`) and
any query time `t`, the snapshot lookup never returns an absent result: it
returns the sample at index `snapshot_idx`, that index is in range and is
the rightmost one whose time is `<= t` (every index with time `<= t` is
`<=` it, and its own time is `<= t` whenever any sample qualifies), and
when `t` precedes the first sample time the index is `0`. -/
theorem snapshot_rightmost_le (margin : ℚ) (g : List Sample) (t : ℚ)
    (hs : List.Sorted timeLe g) (hne : g ≠ []) :
    snapshot_idx (g.map (·.time)) t < g.length ∧
    snapshot margin g t
      = some (snap_of margin (g.getD (snapshot_idx (g.map (·.time)) t) (g.head hne))) ∧
    (∀ j, j < g.length → (g.map (·.time)).getD j 0 ≤ t →
      j ≤ snapshot_idx (g.map (·.time)) t) ∧
    ((g.map (·.time)).getD 0 0 ≤ t →
      (g.map (·.time)).getD (snapshot_idx (g.map (·.time)) t) 0 ≤ t) ∧
    (t < (g.map (·.time)).getD 0 0 → snapshot_idx (g.map (·.time)) t = 0) := by
  have hmne : g.map (·.time) ≠ [] := by simpa using hne
  have hspec := snapshot_idx_spec (g.map (·.time)) t (sorted_times_of_sorted g hs) hmne
  rw [List.length_map] at hspec
  obtain ⟨h1, h2, h3, h4⟩ := hspec
  refine ⟨h1, ?_, h2, h3, h4⟩
  cases g with
  | nil => exact absurd rfl hne
  | cons s0 rest => rfl

/-- Witness for `snapshot_rightmost_le` on a one-sample track queried after
its sample time. -/
theorem snapshot_rightmost_le_witness :
    snapshot 1000 w2track 5
      = some (snap_of 1000 (w2track.getD (snapshot_idx (w2track.map (·.time)) 5)
          (w2track.head (by decide)))) :=
  (snapshot_rightmost_le 1000 w2track 5 (by decide) (by decide)).2.1

/-- C3 counterexample: in a built dataset containing a negative distance
(telemetry `Distance` values are taken as-is), a snapshot on a strictly
higher lap can have a strictly lower progress score even though
`lap_distance_margin` strictly exceeds the maximum observed distance —
the claim's "regardless of their distance values" fails. -/
theorem progress_score_negative_dist_cex :
    listMax (c3tel.map (·.dist)) < lap_distance_margin c3tel ∧
    ∃ a b : String × Snap, a ∈ driver_stats c3inp 0 ∧ b ∈ driver_stats c3inp 0 ∧
      b.2.lap < a.2.lap ∧ ¬ (b.2.score < a.2.score) := by
  have hstats : driver_stats c3inp 0
      = [("A", ⟨0, 1, -2000, -1000⟩), ("B", ⟨0, 0, 0, 0⟩)] := by
    norm_num [driver_stats, c3inp, c3tel, uniqueFirst, uniqueFirstGo, driver_data,
      lap_distance_margin, listMax, pymax, snapshot, snapshot_idx, searchsorted_right,
      snap_of, List.insertionSort, List.orderedInsert, List.filter, List.filterMap, timeLe]
  refine ⟨by norm_num [c3tel, listMax, lap_distance_margin, pymax],
    ("A", ⟨0, 1, -2000, -1000⟩), ("B", ⟨0, 0, 0, 0⟩), ?_, ?_, by decide, by norm_num⟩
  · rw [hstats]
    simp
  · rw [hstats]
    simp

/-- C3 amended: for samples `a`, `b` of the dataset with `a.lap > b.lap`,
the progress score of `a` exceeds that of `b` provided `a`'s distance is
non-negative (`lap_distance_margin` exceeds the maximum observed distance
by at least 100, which bounds `b`'s distance, but cannot compensate an
arbitrarily negative distance on `a`). -/
theorem progress_score_lap_dominates (tel : List Sample) (a b : Sample)
    (ha : a ∈ tel) (hb : b ∈ tel) (hd : 0 ≤ a.dist) (hl : b.lap < a.lap) :
    (snap_of (lap_distance_margin tel) b).score < (snap_of (lap_distance_margin tel) a).score := by
  have hne : (tel.map (·.dist)).isEmpty = false := by
    cases tel with
    | nil => exact absurd ha (List.not_mem_nil a)
    | cons s rest => rfl
  have hbmax : b.dist ≤ listMax (tel.map (·.dist)) :=
    le_listMax _ _ (List.mem_map.mpr ⟨b, hb, rfl⟩)
  have hmargin : lap_distance_margin tel = max 1000 (listMax (tel.map (·.dist)) + 100) := by
    rw [lap_distance_margin]
    simp [hne, pymax_eq_max]
  set m := lap_distance_margin tel with hm
  have hm1 : listMax (tel.map (·.dist)) + 100 ≤ m := hmargin ▸ le_max_right _ _
  have hm0 : (1000 : ℚ) ≤ m := hmargin ▸ le_max_left _ _
  have hcast : (b.lap : ℚ) + 1 ≤ (a.lap : ℚ) := by
    have : b.lap + 1 ≤ a.lap := Int.add_one_le_iff.mpr hl
    exact_mod_cast this
  have hmul : ((b.lap : ℚ) + 1) * m ≤ (a.lap : ℚ) * m :=
    mul_le_mul_of_nonneg_right hcast (by linarith)
  simp only [snap_of]
  nlinarith

/-- Witness for `progress_score_lap_dominates` on a dataset with
non-negative distances. -/
theorem progress_score_lap_dominates_witness :
    (snap_of (lap_distance_margin w3tel) ⟨"B", 0, 0, 0, 0, 0⟩).score
      < (snap_of (lap_distance_margin w3tel) ⟨"A", 0, 0, 0, 1, 5⟩).score :=
  progress_score_lap_dominates w3tel ⟨"A", 0, 0, 0, 1, 5⟩ ⟨"B", 0, 0, 0, 0, 0⟩
    (by decide) (by decide) (by decide) (by decide)

/-- C8: playback startup is aborted (the builder returned `None` and
`load_data` does not launch the viewer) exactly when no driver's lap
contributes any valid sample. -/
theorem load_aborts_iff_no_samples (s : SessionModel) :
    load_data s = LoadOutcome.aborted ↔
      ∀ p ∈ s.drivers, ∀ lap ∈ p.2, lap_samples p.1 lap = [] := by
  have hiff : collect_rows s = [] ↔ ∀ p ∈ s.drivers, ∀ lap ∈ p.2, lap_samples p.1 lap = [] := by
    simp [collect_rows, List.flatMap_eq_nil_iff]
  rw [← hiff]
  unfold load_data collect_session_telemetry
  by_cases hc : collect_rows s = [] <;> simp [hc]

/-- Witness for `load_aborts_iff_no_samples` on the empty session. -/
theorem load_aborts_iff_no_samples_witness :
    load_data ⟨[]⟩ = LoadOutcome.aborted ↔
      ∀ p ∈ (⟨[]⟩ : SessionModel).drivers, ∀ lap ∈ p.2, lap_samples p.1 lap = [] :=
  load_aborts_iff_no_samples ⟨[]⟩

/-! C4: regime selection. -/

/-- C4 counterexample: at `t = 0` in `c4inp` the progress-score leader (B,
whose pre-start snapshot clamps to its first sample on lap 3) has lap `>=`
total_laps, yet the code's regime trigger `current_lap` (maximum lap among
samples with time `<= t`) is still 0, so the frame uses the in-progress
progress-score order, not the final-classification order the claim
requires. -/
theorem regime_leader_lap_cex :
    c4inp.totalLaps ≤ leader_lap_by_score c4inp 0 ∧
    (frame_ranking c4inp 0).map Prod.fst = ["B", "A"] ∧
    ((driver_stats c4inp 0).insertionSort (posLe c4inp.positions)).map Prod.fst = ["A", "B"] ∧
    (frame_ranking c4inp 0).map Prod.fst
      ≠ ((driver_stats c4inp 0).insertionSort (posLe c4inp.positions)).map Prod.fst := by
  have hstats : driver_stats c4inp 0 = [("A", ⟨0, 0, 0, 0⟩), ("B", ⟨10, 3, 0, 3000⟩)] := by
    norm_num [driver_stats, c4inp, c4tel, uniqueFirst, uniqueFirstGo, driver_data,
      lap_distance_margin, listMax, pymax, snapshot, snapshot_idx, searchsorted_right,
      snap_of, List.insertionSort, List.orderedInsert, List.filter, List.filterMap, timeLe]
  have hcur : current_lap c4inp.telemetry 0 = 0 := by
    norm_num [current_lap, c4inp, c4tel, listMaxZ, List.filter]
  have hprog : (driver_stats c4inp 0).insertionSort scoreGe
      = [("B", ⟨10, 3, 0, 3000⟩), ("A", ⟨0, 0, 0, 0⟩)] := by
    rw [hstats]
    norm_num [List.insertionSort, List.orderedInsert, scoreGe]
  have hpos : (driver_stats c4inp 0).insertionSort (posLe c4inp.positions)
      = [("A", ⟨0, 0, 0, 0⟩), ("B", ⟨10, 3, 0, 3000⟩)] := by
    rw [hstats]
    simp [List.insertionSort, List.orderedInsert, posLe, posOf, c4inp, List.find?]
  have hframe : frame_ranking c4inp 0 = (driver_stats c4inp 0).insertionSort scoreGe := by
    rw [frame_ranking, if_neg]
    rw [hcur]
    decide
  refine ⟨?_, ?_, ?_, ?_⟩
  · rw [leader_lap_by_score, hprog]
    simp [c4inp]
  · rw [hframe, hprog]
    rfl
  · rw [hpos]
    rfl
  · rw [hframe, hprog, hpos]
    decide

/-- C4 amended: the ranked list is always a permutation of the per-frame
driver snapshots; it is ordered by recorded classification position
(absent drivers getting the 99 sentinel) exactly when
`current_lap >= total_laps`, where `current_lap` is the maximum lap number
among samples with time `<= sim_time` (0 when none) — not the
progress-score leader's snapshot lap, which can exceed it when a driver's
first sample lies in the future — and by descending progress score while
`current_lap < total_laps`. -/
theorem regime_selection_by_current_lap (inp : ViewerInput) (t : ℚ) :
    (frame_ranking inp t).Perm (driver_stats inp t) ∧
    (inp.totalLaps ≤ current_lap inp.telemetry t →
      List.Sorted (posLe inp.positions) (frame_ranking inp t)) ∧
    (current_lap inp.telemetry t < inp.totalLaps →
      List.Sorted scoreGe (frame_ranking inp t)) := by
  by_cases h : inp.totalLaps ≤ current_lap inp.telemetry t
  · rw [frame_ranking, if_pos h]
    exact ⟨List.perm_insertionSort _ _, fun _ => List.sorted_insertionSort _ _,
      fun hc => absurd h (not_le.mpr hc)⟩
  · rw [frame_ranking, if_neg h]
    exact ⟨List.perm_insertionSort _ _, fun hle => absurd hle h,
      fun _ => List.sorted_insertionSort _ _⟩

/-- Witness for `regime_selection_by_current_lap`: the in-progress branch
at `c4inp`, `t = 0`. -/
theorem regime_selection_by_current_lap_witness :
    List.Sorted scoreGe (frame_ranking c4inp 0) :=
  (regime_selection_by_current_lap c4inp 0).2.2
    (by norm_num [current_lap, c4inp, c4tel, listMaxZ, List.filter])

/-! C5: in-progress ranking and tie order. -/

/-- C5 counterexample: with two equal-score drivers listed in the telemetry
as BB before AA, the in-progress ranking keeps the first-appearance
(insertion) order `["BB", "AA"]` — the stable sort of Python's `sorted` —
and not the driver-identifier order `["AA", "BB"]` the claim requires. -/
theorem ranking_tie_not_by_id_cex :
    current_lap c5inp.telemetry 0 < c5inp.totalLaps ∧
    (∃ sa sb : Snap, ("AA", sa) ∈ driver_stats c5inp 0 ∧ ("BB", sb) ∈ driver_stats c5inp 0 ∧
      sa.score = sb.score) ∧
    (frame_ranking c5inp 0).map Prod.fst = ["BB", "AA"] ∧
    "AA" < "BB" ∧
    (frame_ranking c5inp 0).map Prod.fst ≠ ["AA", "BB"] := by
  have hstats : driver_stats c5inp 0 = [("BB", ⟨0, 0, 0, 0⟩), ("AA", ⟨0, 0, 0, 0⟩)] := by
    norm_num [driver_stats, c5inp, c5tel, uniqueFirst, uniqueFirstGo, driver_data,
      lap_distance_margin, listMax, pymax, snapshot, snapshot_idx, searchsorted_right,
      snap_of, List.insertionSort, List.orderedInsert, List.filter, List.filterMap, timeLe]
  have hcur : current_lap c5inp.telemetry 0 = 0 := by
    norm_num [current_lap, c5inp, c5tel, listMaxZ, List.filter]
  have hframe : frame_ranking c5inp 0 = [("BB", ⟨0, 0, 0, 0⟩), ("AA", ⟨0, 0, 0, 0⟩)] := by
    rw [frame_ranking, if_neg]
    · rw [hstats]
      norm_num [List.insertionSort, List.orderedInsert, scoreGe]
    · rw [hcur]
      decide
  refine ⟨by rw [hcur]; decide, ⟨⟨0, 0, 0, 0⟩, ⟨0, 0, 0, 0⟩, ?_, ?_, rfl⟩, ?_, ?_, ?_⟩
  · rw [hstats]
    simp
  · rw [hstats]
    simp
  · rw [hframe]
    rfl
  · rw [String.lt_iff_toList_lt]
    decide
  · rw [hframe]
    decide

/-- C5 amended: while the race is in progress the ranked list is a
permutation of exactly the drivers appearing in the telemetry (in the
claim's sense, the drivers with any telemetry), it is sorted by descending
progress score, and two entries with equal progress score keep their
relative order from the driver listing (first-appearance order — Python's
stable sort), rather than being reordered by driver identifier. -/
theorem inprogress_ranking_sorted_stable (inp : ViewerInput) (t : ℚ)
    (h : current_lap inp.telemetry t < inp.totalLaps) :
    ((frame_ranking inp t).map Prod.fst).Perm (uniqueFirst (inp.telemetry.map (·.driver))) ∧
    List.Sorted scoreGe (frame_ranking inp t) ∧
    (∀ a b : String × Snap, a.2.score = b.2.score →
      List.Sublist [a, b] (driver_stats inp t) → List.Sublist [a, b] (frame_ranking inp t)) := by
  have hfr : frame_ranking inp t = (driver_stats inp t).insertionSort scoreGe := by
    rw [frame_ranking, if_neg (not_le.mpr h)]
  refine ⟨?_, ?_, ?_⟩
  · rw [hfr, ← driver_stats_fst inp t]
    exact (List.perm_insertionSort scoreGe (driver_stats inp t)).map Prod.fst
  · rw [hfr]
    exact List.sorted_insertionSort _ _
  · intro a b hs hsub
    rw [hfr]
    exact List.pair_sublist_insertionSort (le_of_eq hs.symm) hsub

/-- Witness for `inprogress_ranking_sorted_stable` at `c5inp`, `t = 0`. -/
theorem inprogress_ranking_sorted_stable_witness :
    ((frame_ranking c5inp 0).map Prod.fst).Perm (uniqueFirst (c5inp.telemetry.map (·.driver))) ∧
    List.Sorted scoreGe (frame_ranking c5inp 0) ∧
    (∀ a b : String × Snap, a.2.score = b.2.score →
      List.Sublist [a, b] (driver_stats c5inp 0) → List.Sublist [a, b] (frame_ranking c5inp 0)) :=
  inprogress_ranking_sorted_stable c5inp 0
    (by norm_num [current_lap, c5inp, c5tel, listMaxZ, List.filter])

/-! C1: timeline normalization, sortedness and (non-)stability. -/

theorem c1session_contract : timeline_contract c1session c1out := by
  have hrows : collect_rows c1session = [⟨"P", 7, 0, 0, 1, 0⟩, ⟨"Q", 7, 0, 0, 1, 0⟩] := by
    norm_num [collect_rows, c1session, c1lap, lap_samples, listMin, List.filter]
  have hnorm : normalized_rows c1session = [c1sampleP, c1sampleQ] := by
    simp only [normalized_rows, hrows]
    norm_num [listMin, c1sampleP, c1sampleQ]
  refine ⟨?_, ?_, ?_⟩
  · rw [hrows]
    simp
  · rw [hnorm]
    exact List.Perm.swap c1sampleP c1sampleQ []
  · norm_num [c1out, List.sorted_cons, c1sampleP, c1sampleQ, timeLe]

/-- C1 counterexample: the sort contract of the builder (any time-sorted
permutation; pandas `sort_values` defaults to the unstable quicksort)
admits an output on `c1session` that swaps the two equal-time samples, so
the claim's stability clause — equal-time samples keep their pre-sort
relative order — is not guaranteed by the code. -/
theorem timeline_stability_counterexample :
    timeline_contract c1session c1out ∧
    ¬ keeps_equal_time_order (normalized_rows c1session) c1out := by
  have hrows : collect_rows c1session = [⟨"P", 7, 0, 0, 1, 0⟩, ⟨"Q", 7, 0, 0, 1, 0⟩] := by
    norm_num [collect_rows, c1session, c1lap, lap_samples, listMin, List.filter]
  have hnorm : normalized_rows c1session = [c1sampleP, c1sampleQ] := by
    simp only [normalized_rows, hrows]
    norm_num [listMin, c1sampleP, c1sampleQ]
  refine ⟨c1session_contract, ?_⟩
  intro hk
  have hsub : List.Sublist [c1sampleP, c1sampleQ] (normalized_rows c1session) := by
    rw [hnorm]
  have h2 := hk c1sampleP c1sampleQ rfl hsub
  have h3 := h2.eq_of_length rfl
  simp [c1out, c1sampleP, c1sampleQ] at h3

/-- C1 amended: every output the builder's sort contract admits (hence in
particular the built timeline) is non-empty, has minimum time exactly 0
(the global minimum was subtracted from every sample), and is sorted
ascending by time; the relative order of equal-time samples is left
unspecified by the default quicksort. -/
theorem timeline_min_zero_sorted (s : SessionModel) (out : List Sample)
    (h : timeline_contract s out) :
    out ≠ [] ∧ listMin (out.map (·.time)) = 0 ∧ List.Sorted timeLe out := by
  obtain ⟨hne, hperm, hsort⟩ := h
  have hnne : normalized_rows s ≠ [] := by
    rw [normalized_rows]
    simpa using hne
  refine ⟨?_, ?_, hsort⟩
  · intro he
    rw [he] at hperm
    exact hnne hperm.symm.eq_nil
  · have hmap : (out.map (·.time)).Perm ((normalized_rows s).map (·.time)) := hperm.map _
    rw [listMin_perm hmap]
    have hexp : (normalized_rows s).map (·.time)
        = ((collect_rows s).map (·.time)).map
            (fun x => x - listMin ((collect_rows s).map (·.time))) := by
      simp only [normalized_rows, List.map_map]
      rfl
    rw [hexp, listMin_map_sub _ _ (by simpa using hne), sub_self]

/-- Witness for `timeline_min_zero_sorted` at the concrete session and
output of the counterexample. -/
theorem timeline_min_zero_sorted_witness :
    c1out ≠ [] ∧ listMin (c1out.map (·.time)) = 0 ∧ List.Sorted timeLe c1out :=
  timeline_min_zero_sorted c1session c1out c1session_contract
